import Mathlib

/-!
Verification development for the alice-display condition-based selection
engine (scripts/select_image.py, the legacy variant, and
scripts/select_image_new.py, the newer variant).

The Python code is shallowly embedded: each Python function becomes a Lean
function over explicit data; file-system reads are represented by an
explicit `FileContent` input; `random.random()` and `random.choice` are
represented by explicit parameters (a rational `r` and a natural index);
the in-place mutation performed by the new variant's `select` is
represented by returning the post-call catalog alongside the result.
-/

namespace AliceDisplay

/-! ### String helpers mirroring Python semantics -/

/-- Python list/char-level "does `needle` occur at the start of `hay`". -/
def startsWithL : List Char → List Char → Bool
  | [], _ => true
  | _ :: _, [] => false
  | a :: as, b :: bs => a == b && startsWithL as bs

/-- Python `needle in hay` (contiguous substring) on character lists. -/
def hasSubL (needle : List Char) : List Char → Bool
  | [] => needle.isEmpty
  | c :: rest => startsWithL needle (c :: rest) || hasSubL needle rest

/-- Python `needle in hay` for strings. -/
def hasSub (needle hay : String) : Bool := hasSubL needle.data hay.data

/-- Python `a or b` on strings: `""` (and an absent key, which we encode as
`""`) is falsy. -/
def pyOrS (a b : String) : String := if a = "" then b else a

/-- Python `str.lower()`; the catalog tags are ASCII, where per-character
lowering coincides with Python's. -/
def strLower (s : String) : String := String.mk (s.data.map Char.toLower)

/-- The default whitespace set of Python `str.strip()` (ASCII part). -/
def isSpaceB (c : Char) : Bool :=
  c == ' ' || c == '\t' || c == '\n' || c == '\r' || c == '\x0b' || c == '\x0c'

/-- Python `str.strip()`. -/
def strStrip (s : String) : String :=
  String.mk (((s.data.dropWhile isSpaceB).reverse.dropWhile isSpaceB).reverse)

/-! ### The image record

One catalog entry, a JSON object accessed via `dict.get` in Python.  An
absent string key and `.get(k, "")` both behave as `""` in every use the
two scripts make of these fields, except `time_period`, where the legacy
script distinguishes an absent key (falls back to the `time` key) from a
present one; that field is therefore an `Option`.  Numeric fields default
to `0`, `verified` to `False`, exactly as the `.get` defaults in the
source. -/

structure Record where
  id : String := ""
  notion_id : String := ""
  name : String := ""
  title : String := ""
  weather : String := ""
  time_period : Option String := none
  time : String := ""
  time_of_day : String := ""
  activity : String := ""
  holiday : String := ""
  cloudinary_url : String := ""
  verified : Bool := false
  rating_score : Int := 0
  total_ratings : Nat := 0
  path : String := ""
  row_number : Nat := 0
  deriving DecidableEq, Repr

/-! ### Catalog loading (both variants)

`json.load` either yields a parsed document or raises; the documents this
system reads are either a bare array of records or an object optionally
carrying an `images` array.  `FileContent` is the state of the database
file as the loader sees it. -/

inductive ParsedDoc where
  | arr (records : List Record)
  | obj (images : Option (List Record))
  deriving DecidableEq

inductive FileContent where
  | missing
  | malformed
  | wellFormed (d : ParsedDoc)
  deriving DecidableEq

namespace Legacy

/-- From `select_image.py` lines 96-107 (`ImageSelector._load_database`): a
missing file returns `[]`; `json.load` is NOT wrapped in try/except, so a
malformed file raises `json.JSONDecodeError` (modelled as `.error`); a
parsed list is returned as-is and a parsed object yields its `images` key
or `[]`. -/
def loadDatabase : FileContent → Except String (List Record)
  | .missing => .ok []
  | .malformed => .error "json.decoder.JSONDecodeError"
  | .wellFormed (.arr rs) => .ok rs
  | .wellFormed (.obj i) => .ok (i.getD [])

end Legacy

namespace NewVariant

/-- From `select_image_new.py` lines 56-71 (`ImageSelector._load_database`):
identical shape handling, but the whole body is wrapped in
`try/except Exception`, so a malformed file also yields `[]`. -/
def loadDatabase : FileContent → List Record
  | .missing => []
  | .malformed => []
  | .wellFormed (.arr rs) => rs
  | .wellFormed (.obj i) => i.getD []

end NewVariant

/-! ### History store (both variants)

`_save_history` appends one entry, then truncates with `[-100:]`. -/

structure HistEntry where
  id : String := ""
  name : String := ""
  timestamp : String := ""
  weather : String := ""
  time_of_day : String := ""
  activity : String := ""
  deriving DecidableEq, Repr

namespace History

/-- Python `l[-100:]` on a list. -/
def takeLast (n : Nat) (l : List HistEntry) : List HistEntry :=
  l.drop (l.length - n)

/-- From `select_image.py` lines 119-133 / `select_image_new.py` lines 93-111
(`ImageSelector._save_history`), restricted to the `selections` list it
mutates: append the new entry, keep only the last 100. -/
def saveHistory (h : List HistEntry) (e : HistEntry) : List HistEntry :=
  takeLast 100 (h ++ [e])

end History

namespace Legacy

/-! ### Legacy variant: `scripts/select_image.py` -/

/-- Lines 24-34: weather fallback chains; `WEATHER_FALLBACKS.get(w, [])`. -/
def WEATHER_FALLBACKS : String → List String
  | "Sunny" => ["Partly Cloudy", "Cloudy"]
  | "Partly Cloudy" => ["Sunny", "Cloudy"]
  | "Cloudy" => ["Overcast", "Partly Cloudy"]
  | "Overcast" => ["Cloudy", "Rainy"]
  | "Rainy" => ["Stormy", "Cloudy", "Overcast"]
  | "Stormy" => ["Rainy", "Overcast"]
  | "Snowy" => ["Cloudy", "Overcast", "Foggy"]
  | "Foggy" => ["Cloudy", "Overcast"]
  | "Windy" => ["Cloudy", "Partly Cloudy"]
  | _ => []

/-- Lines 38-49: time-of-day fallback chains; `TIME_FALLBACKS.get(t, [])`. -/
def TIME_FALLBACKS : String → List String
  | "Dawn" => ["Early Morning", "Morning", "Golden Hour"]
  | "Early Morning" => ["Dawn", "Morning"]
  | "Morning" => ["Dawn", "Midday", "Early Morning"]
  | "Midday" => ["Afternoon", "Morning"]
  | "Afternoon" => ["Midday", "Evening", "Golden Hour"]
  | "Golden Hour" => ["Afternoon", "Evening"]
  | "Evening" => ["Golden Hour", "Afternoon", "Night"]
  | "Night" => ["Late Night", "Evening", "Dawn"]
  | "Late Night" => ["Night", "Dawn"]
  | "Clear Night" => ["Night", "Late Night", "Evening"]
  | _ => []

/-- Lines 53-84: `ACTIVITY_BY_HOUR.get(hour, [])`. -/
def ACTIVITY_BY_HOUR : Nat → List String
  | 22 => ["Sleeping"]
  | 23 => ["Sleeping"]
  | 0 => ["Sleeping"]
  | 1 => ["Sleeping"]
  | 2 => ["Sleeping"]
  | 3 => ["Sleeping"]
  | 4 => ["Sleeping"]
  | 5 => ["Sleeping"]
  | 6 => ["Sleeping", "Waking Up", "Morning Routine"]
  | 7 => ["Waking Up", "Morning Routine", "Breakfast", "Exercise"]
  | 8 => ["Breakfast", "Exercise", "Work", "Outdoor"]
  | 9 => ["Work", "Exercise", "Outdoor", "Creative"]
  | 10 => ["Work", "Outdoor", "Creative", "Exercise"]
  | 11 => ["Work", "Outdoor", "Creative"]
  | 12 => ["Lunch", "Work", "Outdoor"]
  | 13 => ["Lunch", "Work", "Leisure", "Outdoor"]
  | 14 => ["Work", "Leisure", "Creative", "Outdoor"]
  | 15 => ["Work", "Leisure", "Creative", "Outdoor"]
  | 16 => ["Leisure", "Creative", "Outdoor", "Exercise"]
  | 17 => ["Leisure", "Creative", "Outdoor"]
  | 18 => ["Dinner", "Leisure", "Creative"]
  | 19 => ["Dinner", "Leisure", "Reading", "Gaming"]
  | 20 => ["Leisure", "Reading", "Gaming", "Movie"]
  | 21 => ["Wind Down", "Reading", "Skincare", "Preparing for Bed"]
  | _ => []

/-- Lines 376-380: `img.get("holiday", "").strip()` is truthy. -/
def isHolidayB (img : Record) : Bool := strStrip img.holiday != ""

/-- Lines 383-384: two-way case-insensitive substring match on weather. -/
def weatherMatchB (q : String) (img : Record) : Bool :=
  let iw := strLower img.weather
  hasSub (strLower q) iw || hasSub iw (strLower q)

/-- Lines 388-389: same on `time_period` (falling back to the `time` key). -/
def timeMatchB (q : String) (img : Record) : Bool :=
  let it := strLower (img.time_period.getD img.time)
  hasSub (strLower q) it || hasSub it (strLower q)

/-- Lines 374-389 combined: the holiday/weather/time part of the
`_find_matches` per-record filter (everything except the exclusion set). -/
def basicMatchB (w t : String) (img : Record) : Bool :=
  !isHolidayB img && weatherMatchB w img && timeMatchB t img

/-- Lines 239 / 416: `img.get("cloudinary_url") and
img.get("cloudinary_url").strip()` is truthy. -/
def hasCdnB (img : Record) : Bool := strStrip img.cloudinary_url != ""

/-- Lines 399-406: one preferred activity occurs in the record's lowered
`activity` or lowered `title`. -/
def activityHitB (prefs : List String) (img : Record) : Bool :=
  prefs.any fun p =>
    hasSub (strLower p) (strLower img.activity) || hasSub (strLower p) (strLower img.title)

/-- Lines 373-396 of `_find_matches`: the records that pass the
holiday/weather/time/recency filters, in catalog order (the `matches`
list). -/
def survivorsLegacy (cat : List Record) (w t : String) (excl : List String) :
    List Record :=
  cat.filter fun img =>
    basicMatchB w t img && !(excl.contains img.id)

/-- Lines 399-411: if any survivor hits a preferred activity, the
activity-matching subset replaces the whole survivor set. -/
def activityOverride (prefs : List String) (ms : List Record) : List Record :=
  let am := ms.filter (activityHitB prefs)
  if am.isEmpty then ms else am

/-- Lines 368-417 (`ImageSelector._find_matches`): filtered survivors,
activity override, then the strict CDN-URL restriction of lines 413-417 —
only records with a usable `cloudinary_url` are returned, possibly none. -/
def findMatches (cat : List Record) (w t : String) (excl : List String)
    (prefs : List String) : List Record :=
  (activityOverride prefs (survivorsLegacy cat w t excl)).filter hasCdnB

/-- Lines 306-343: the per-candidate weight of `_weighted_random_choice`,
with Python's float arithmetic idealized as exact rational arithmetic (the
clamp bounds and the claim's concrete weights coincide under both). -/
def weightOf (img : Record) : ℚ :=
  if 5 ≤ img.total_ratings then
    max (1/10 : ℚ) (min 3 (1 + (img.rating_score : ℚ) / 10))
  else 1

/-- Lines 353-363: walk the cumulative distribution and return the first
candidate whose cumulative probability reaches the random draw `r`. -/
def pickCum : List (Record × ℚ) → ℚ → ℚ → Option Record
  | [], _, _ => none
  | (img, p) :: rest, r, cum =>
    let cum' := cum + p
    if r ≤ cum' then some img else pickCum rest r cum'

/-- Lines 306-366 (`ImageSelector._weighted_random_choice`): `r` stands for
the value of `random.random()` and `fIdx` for the index `random.choice`
would pick in the two unreachable fallback branches. -/
def weightedRandomChoice (cands : List Record) (r : ℚ) (fIdx : Nat) :
    Option Record :=
  if cands.isEmpty then none
  else if cands.length == 1 then cands.head?
  else
    let weights := cands.map weightOf
    let total := weights.sum
    if total = 0 then cands.get? (fIdx % cands.length)
    else
      let probs := weights.map (· / total)
      match pickCum (cands.zip probs) r 0 with
      | some img => some img
      | none => cands.get? (fIdx % cands.length)

/-- Helper used to embed the `for ...: if candidates: break` loops: the
first fallback label whose match set is non-empty. -/
def nonEmptyOpt (l : List Record) : Option (List Record) :=
  if l.isEmpty then none else some l

/-- Lines 191-196: weather-fallback stage. -/
def tryWeather (cat : List Record) (w t : String) (excl : List String)
    (prefs : List String) : Option (List Record) :=
  (WEATHER_FALLBACKS w).findSome? fun fw =>
    nonEmptyOpt (findMatches cat fw t excl prefs)

/-- Lines 199-204: time-fallback stage. -/
def tryTime (cat : List Record) (w t : String) (excl : List String)
    (prefs : List String) : Option (List Record) :=
  (TIME_FALLBACKS t).findSome? fun ft =>
    nonEmptyOpt (findMatches cat w ft excl prefs)

/-- Lines 207-215: combined weather x time fallback, weather outer loop. -/
def tryCombined (cat : List Record) (w t : String) (excl : List String)
    (prefs : List String) : Option (List Record) :=
  (WEATHER_FALLBACKS w).findSome? fun fw =>
    (TIME_FALLBACKS t).findSome? fun ft =>
      nonEmptyOpt (findMatches cat fw ft excl prefs)

/-- Lines 187-215: exact match, then the three fallback stages. -/
def cascade (cat : List Record) (w t : String) (excl : List String)
    (prefs : List String) : List Record :=
  let c0 := findMatches cat w t excl prefs
  if !c0.isEmpty then c0
  else
    match tryWeather cat w t excl prefs with
    | some c => c
    | none =>
      match tryTime cat w t excl prefs with
      | some c => c
      | none => (tryCombined cat w t excl prefs).getD []

/-- Line 219: `hour in [22, 23, 0, 1, 2, 3, 4, 5]`. -/
def sleepingHourB (hour : Nat) : Bool :=
  [22, 23, 0, 1, 2, 3, 4, 5].contains hour

/-- Lines 222-230 (`has_activity_match`): vacuously true for no
preferences; otherwise some candidate's lowered `activity` contains some
preferred term (the title is NOT consulted here, unlike `_find_matches`). -/
def hasActivityMatchB (cands : List Record) (prefs : List String) : Bool :=
  prefs.isEmpty ||
    cands.any fun c => prefs.any fun p => hasSub (strLower p) (strLower c.activity)

/-- Lines 238-248 condensed: the first match set (exact, then each weather
fallback, all with an empty exclusion set) that is non-empty and contains a
CDN-backed record.  Python keeps the last loop value on failure but then
re-tests the same condition, so "first satisfying or nothing" is the exact
semantics of lines 241-249. -/
def sleepSearch (cat : List Record) (w t : String) (prefs : List String) :
    Option (List Record) :=
  let e := findMatches cat w t [] prefs
  if !e.isEmpty && e.any hasCdnB then some e
  else
    (WEATHER_FALLBACKS w).findSome? fun fw =>
      let sc := findMatches cat fw t [] prefs
      if !sc.isEmpty && sc.any hasCdnB then some sc else none

/-- Lines 217-252: the sleeping-hour overlay; when it fires and finds a
CDN-backed set, that set (restricted to CDN records) replaces the current
candidates. -/
def overlay (cat : List Record) (w t : String) (hour : Nat)
    (avoidRecent : Bool) (prefs : List String) (cands : List Record) :
    List Record :=
  if avoidRecent && sleepingHourB hour && !prefs.isEmpty &&
      !hasActivityMatchB cands prefs then
    match sleepSearch cat w t prefs with
    | some sc => sc.filter hasCdnB
    | none => cands
  else cands

/-- Lines 254-265: with no candidates, retry the exact match and the
weather fallbacks with the activity preference dropped. -/
def relaxActivity (cat : List Record) (w t : String) (excl : List String)
    (prefs : List String) (cands : List Record) : List Record :=
  if cands.isEmpty && !prefs.isEmpty then
    let d0 := findMatches cat w t excl []
    if !d0.isEmpty then d0 else (tryWeather cat w t excl []).getD []
  else cands

/-- Lines 278-287: the quiet-hours activity terms of the ultimate fallback
(already lowercase in the source). -/
def sleepingActivities : List String := ["sleeping", "waking up", "morning routine"]

/-- Lines 272-296: the ultimate fallback candidate set — all CDN-backed
catalog records, restricted during hours >= 22 or <= 7 to sleep-adjacent
activities when that restriction is non-empty; the whole catalog if no
record has a CDN URL. -/
def ultimateFallback (cat : List Record) (hour : Nat) : List Record :=
  let cdnImages := cat.filter hasCdnB
  let cdnImages :=
    if 22 ≤ hour || hour ≤ 7 then
      let filtered := cdnImages.filter fun img =>
        sleepingActivities.any fun act =>
          hasSub act (strLower img.activity) || hasSub act (strLower img.title)
      if filtered.isEmpty then cdnImages else filtered
    else cdnImages
  if cdnImages.isEmpty then cat else cdnImages

/-- Lines 184-265 of `select`: the candidate set after the cascade (lines
187-215), the sleeping-hour overlay (lines 217-252) and the
activity-relaxation retry (lines 254-265), given the active exclusion set
`excl`. -/
def candidatePipeline (cat : List Record) (w t : String) (hour : Nat)
    (excl : List String) (avoidRecent : Bool) : List Record :=
  relaxActivity cat w t excl (ACTIVITY_BY_HOUR hour)
    (overlay cat w t hour avoidRecent (ACTIVITY_BY_HOUR hour)
      (cascade cat w t excl (ACTIVITY_BY_HOUR hour)))

/-- Lines 150-304 (`ImageSelector.select`): the full selection pipeline.
`recentIds` is the result of `_get_recent_ids(24)`; `r` and `fIdx` stand
for the random draws (see `weightedRandomChoice`).  The recursive
recency-relaxation re-entry of lines 267-270 consumes one unit of `fuel`;
`fuel = 0` is the (unreachable) out-of-fuel bottom. -/
def selectFuel : Nat → List Record → String → String → Nat → List String →
    Bool → ℚ → Nat → Option Record
  | 0, _, _, _, _, _, _, _, _ => none
  | fuel + 1, cat, w, t, hour, recentIds, avoidRecent, r, fIdx =>
    if cat.isEmpty then none
    else
      let recent := if avoidRecent then recentIds else []
      let c5 := candidatePipeline cat w t hour recent avoidRecent
      if c5.isEmpty && avoidRecent then
        selectFuel fuel cat w t hour recentIds false r fIdx
      else
        weightedRandomChoice
          (if c5.isEmpty then ultimateFallback cat hour else c5) r fIdx

/-- The entry point `ImageSelector.select` itself: the recursion depth is at most two (the
re-entered call runs with `avoid_recent=False`), so two units of fuel are
the exact budget; see the C8 theorem. -/
def select (cat : List Record) (w t : String) (hour : Nat)
    (recentIds : List String) (avoidRecent : Bool) (r : ℚ) (fIdx : Nat) :
    Option Record :=
  selectFuel 2 cat w t hour recentIds avoidRecent r fIdx

end Legacy

namespace NewVariant

/-! ### New variant: `scripts/select_image_new.py`

Candidates are carried as `(index, record)` pairs into the catalog so that
the in-place mutation of the chosen dict (lines 218-231) can be expressed
as replacement at that index. -/

/-- Lines 23-31. -/
def WEATHER_FALLBACKS : String → List String
  | "Sunny" => ["Cloudy", "Overcast"]
  | "Cloudy" => ["Overcast", "Sunny", "Foggy"]
  | "Overcast" => ["Cloudy", "Foggy", "Rainy"]
  | "Rainy" => ["Stormy", "Overcast", "Cloudy"]
  | "Stormy" => ["Rainy", "Overcast"]
  | "Snowy" => ["Cloudy", "Overcast", "Foggy"]
  | "Foggy" => ["Cloudy", "Overcast"]
  | _ => []

/-- Lines 34-41. -/
def TIME_FALLBACKS : String → List String
  | "Dawn" => ["Morning", "Evening"]
  | "Morning" => ["Dawn", "Midday"]
  | "Midday" => ["Morning", "Afternoon"]
  | "Afternoon" => ["Midday", "Evening"]
  | "Evening" => ["Afternoon", "Night"]
  | "Night" => ["Evening", "Dawn"]
  | _ => []

/-- Lines 245-263 of `_find_matches`: exact (case-insensitive) weather and
time equality on stripped non-empty tags, and the recency exclusion over
both the id (or `notion_id`) and the name (or `title`). -/
def eligiblePairB (w t : String) (excl : List String) (p : Nat × Record) :
    Bool :=
  let img := p.2
  let iw := strStrip img.weather
  let it := strStrip img.time_of_day
  iw != "" && strLower iw == strLower w &&
  it != "" && strLower it == strLower t &&
  !(excl.contains (pyOrS img.id img.notion_id)) &&
  !(excl.contains (pyOrS img.name img.title))

/-- The `matches` list of lines 243-265, as indexed catalog entries. -/
def survivorsNew (cat : List Record) (w t : String) (excl : List String) :
    List (Nat × Record) :=
  cat.enum.filter (eligiblePairB w t excl)

/-- Lines 241-272 (`ImageSelector._find_matches`): survivors, then the
verified-preference of lines 267-272 — if any survivor is verified, only
the verified survivors are returned. -/
def findMatchesNew (cat : List Record) (w t : String) (excl : List String) :
    List (Nat × Record) :=
  let ms := survivorsNew cat w t excl
  let verifiedMatches := ms.filter fun p => p.2.verified
  if verifiedMatches.isEmpty then ms else verifiedMatches

/-- Same loop-with-break embedding as in the legacy variant. -/
def nonEmptyOptP (l : List (Nat × Record)) : Option (List (Nat × Record)) :=
  if l.isEmpty then none else some l

/-- Lines 168-175: weather-fallback stage. -/
def tryWeatherNew (cat : List Record) (w t : String) (excl : List String) :
    Option (List (Nat × Record)) :=
  (WEATHER_FALLBACKS w).findSome? fun fw =>
    nonEmptyOptP (findMatchesNew cat fw t excl)

/-- Lines 177-184: time-fallback stage. -/
def tryTimeNew (cat : List Record) (w t : String) (excl : List String) :
    Option (List (Nat × Record)) :=
  (TIME_FALLBACKS t).findSome? fun ft =>
    nonEmptyOptP (findMatchesNew cat w ft excl)

/-- Lines 186-196: combined fallback, weather outer loop. -/
def tryCombinedNew (cat : List Record) (w t : String) (excl : List String) :
    Option (List (Nat × Record)) :=
  (WEATHER_FALLBACKS w).findSome? fun fw =>
    (TIME_FALLBACKS t).findSome? fun ft =>
      nonEmptyOptP (findMatchesNew cat fw ft excl)

/-- Lines 164-196: exact match then the three fallback stages. -/
def cascadeNew (cat : List Record) (w t : String) (excl : List String) :
    List (Nat × Record) :=
  let c0 := findMatchesNew cat w t excl
  if !c0.isEmpty then c0
  else
    match tryWeatherNew cat w t excl with
    | some c => c
    | none =>
      match tryTimeNew cat w t excl with
      | some c => c
      | none => (tryCombinedNew cat w t excl).getD []

/-- Lines 203-209: the ultimate fallback — every verified catalog record,
or the whole catalog when none is verified. -/
def ultimateFallbackNew (cat : List Record) : List (Nat × Record) :=
  let v := cat.enum.filter fun p => p.2.verified
  if v.isEmpty then cat.enum else v

/-- Split a character list on `'/'`. -/
def splitSlashAux (acc : List Char) : List Char → List (List Char)
  | [] => [acc.reverse]
  | c :: rest =>
    if c == '/' then acc.reverse :: splitSlashAux [] rest
    else splitSlashAux (c :: acc) rest

/-- Python `Path(p).name`: final path component, ignoring empty segments (pathlib
drops empty and trailing-slash segments). -/
def lastComp (s : String) : String :=
  (((splitSlashAux [] s.data).map String.mk).filter (· ≠ "")).getLastD ""

/-- Index of the last occurrence of `c`. -/
def rfindIdx (c : Char) : List Char → Option Nat
  | [] => none
  | a :: rest =>
    match rfindIdx c rest with
    | some i => some (i + 1)
    | none => if a == c then some 0 else none

/-- Python `PurePath.stem`: the name minus its suffix, where the suffix starts at
the last dot only when that dot is neither the first nor the last
character of the name. -/
def pathStem (s : String) : String :=
  let nm := lastComp s
  let cs := nm.data
  match rfindIdx '.' cs with
  | some i => if 0 < i ∧ i < cs.length - 1 then (cs.take i).asString else nm
  | none => nm

/-- Python `f"{n:03d}"`. -/
def pad3 (n : Nat) : String :=
  let s := toString n
  if s.length < 3 then String.mk (List.replicate (3 - s.length) '0') ++ s
  else s

/-- Line 227: `name.replace(' ', '_').replace('-', '_')`. -/
def underscoreName (s : String) : String :=
  (s.data.map fun c => if c == ' ' || c == '-' then '_' else c).asString

/-- Lines 219-227: the filename key used to look up a Cloudinary URL;
`none` when both the `path` and the `name`/`row_number` routes are falsy. -/
def filenameOf (img : Record) : Option String :=
  if img.path != "" then some (pathStem img.path)
  else if img.name != "" then
    if img.row_number != 0 then
      some (pad3 img.row_number ++ "_" ++ underscoreName img.name)
    else none
  else none

/-- Lines 229-231: `selected["cloudinary_url"] = self.cloudinary_urls[filename]`
when the filename is truthy and present in the mapping; this overwrites the
field of the chosen record in place. -/
def enhanceRecord (urls : List (String × String)) (img : Record) : Record :=
  match filenameOf img with
  | none => img
  | some fn =>
    if fn != "" then
      match urls.lookup fn with
      | some u => { img with cloudinary_url := u }
      | none => img
    else img

/-- Lines 211-239 of the new variant's `select`: the guard for an empty
candidate set, the `random.choice` pick (as the index `choiceIdx` reduced
mod the candidate count), the Cloudinary-URL enhancement and the resulting
in-place catalog update at the chosen index. -/
def pickAndEnhance (cat : List Record) (urls : List (String × String))
    (c4 : List (Nat × Record)) (choiceIdx : Nat) :
    Option Record × List Record :=
  if c4.isEmpty then (none, cat)
  else
    match c4.get? (choiceIdx % c4.length) with
    | none => (none, cat)
    | some (i, img) =>
      let enhanced := enhanceRecord urls img
      (some enhanced, cat.set i enhanced)

/-- Lines 134-239 (`ImageSelector.select`): returns the chosen (possibly
enhanced) record together with the post-call catalog, making the in-place
mutation of lines 218-231 explicit.  `choiceIdx` stands for the index
`random.choice` picks (reduced mod the candidate count); the
recency-relaxation re-entry of lines 198-201 consumes one unit of fuel. -/
def selectNewFuel : Nat → List Record → List (String × String) → String →
    String → List String → Bool → Nat → Option Record × List Record
  | 0, cat, _, _, _, _, _, _ => (none, cat)
  | fuel + 1, cat, urls, w, t, recentIds, avoidRecent, choiceIdx =>
    if cat.isEmpty then (none, cat)
    else
      let recent := if avoidRecent then recentIds else []
      let c3 := cascadeNew cat w t recent
      if c3.isEmpty && avoidRecent then
        selectNewFuel fuel cat urls w t recentIds false choiceIdx
      else
        pickAndEnhance cat urls
          (if c3.isEmpty then ultimateFallbackNew cat else c3) choiceIdx

/-- The entry point `ImageSelector.select` of the new variant; fuel 2 is the exact budget
(see the C8 theorem). -/
def selectNew (cat : List Record) (urls : List (String × String))
    (w t : String) (recentIds : List String) (avoidRecent : Bool)
    (choiceIdx : Nat) : Option Record × List Record :=
  selectNewFuel 2 cat urls w t recentIds avoidRecent choiceIdx

end NewVariant

/-! ### Concrete instances used by the counterexamples and witnesses -/

/-- A holiday-tagged record that exactly matches Sunny + Morning and has a
usable CDN URL. -/
def cexHoliday : Record :=
  { id := "h1", weather := "Sunny", time_period := some "Morning",
    holiday := "Hanukkah",
    cloudinary_url := "https://res.cloudinary.com/alice/h.png" }

/-- A record exactly matching Sunny + Morning but with no CDN URL. -/
def cexA : Record := { id := "1", weather := "Sunny", time_period := some "Morning" }

/-- A CDN-backed Cloudy + Morning record (reachable from Sunny through the
legacy weather-fallback chain). -/
def cexB : Record :=
  { id := "2", weather := "Cloudy", time_period := some "Morning",
    cloudinary_url := "https://res.cloudinary.com/alice/b.png" }

/-- A CDN-backed record exactly matching Sunny + Morning. -/
def cexACdn : Record :=
  { id := "1", weather := "Sunny", time_period := some "Morning",
    cloudinary_url := "https://res.cloudinary.com/alice/a.png" }

/-- Ten ratings, score +10: the spec's high-weight example. -/
def imgPlus : Record := { id := "p", total_ratings := 10, rating_score := 10 }

/-- Ten ratings, score -10: the spec's low-weight example. -/
def imgMinus : Record := { id := "m", total_ratings := 10, rating_score := -10 }

/-- A verified record whose `path` stem resolves in the URL mapping. -/
def mutRec : Record :=
  { id := "n1", name := "Alice", weather := "Sunny", time_of_day := "Morning",
    verified := true, path := "images/001_alice.png" }

/-- A Cloudinary URL mapping containing the stem of `mutRec`'s path. -/
def mutUrls : List (String × String) := [("001_alice", "https://cdn.example/x.png")]

/-- An unverified Sunny + Morning record. -/
def unverRec : Record := { id := "u", weather := "Sunny", time_of_day := "Morning" }

/-- A verified Sunny + Morning record. -/
def verRec : Record :=
  { id := "v", weather := "Sunny", time_of_day := "Morning", verified := true }

/-! ### Shared lemmas -/

/-- Filtering with a strengthened predicate cannot re-introduce records:
an empty filter stays empty. -/
theorem filter_and_nil {α : Type} (p q : α → Bool) (l : List α)
    (h : l.filter p = []) : l.filter (fun x => p x && q x) = [] := by
  rw [List.filter_eq_nil_iff] at h ⊢
  intro a ha
  simp only [Bool.and_eq_true, not_and]
  intro hp
  exact absurd hp (h a ha)

/-- If exactly `a` passes `p` and `a` also passes `q`, then exactly `a`
passes the conjunction. -/
theorem filter_and_single {α : Type} (p q : α → Bool) (a : α) :
    ∀ l : List α, l.filter p = [a] → q a = true →
      l.filter (fun x => p x && q x) = [a] := by
  intro l
  induction l with
  | nil => intro h _; simp at h
  | cons x xs ih =>
    intro h hq
    by_cases hx : p x = true
    · rw [List.filter_cons_of_pos hx] at h
      obtain ⟨rfl, htail⟩ := List.cons_eq_cons.mp h
      rw [List.filter_cons_of_pos (by simp [hx, hq]), filter_and_nil p q xs htail]
    · rw [List.filter_cons_of_neg hx] at h
      rw [List.filter_cons_of_neg (by simp [hx]), ih h hq]

/-- Re-truncating after an append sees exactly the same tail as truncating
the un-truncated append: `[-n:]` keeps a suffix, so dropping the elements
before it never changes a later `[-n:]`. -/
theorem takeLast_takeLast_append (n : Nat) (l r : List HistEntry) :
    History.takeLast n (History.takeLast n l ++ r) =
      History.takeLast n (l ++ r) := by
  unfold History.takeLast
  rw [List.drop_append_eq_append_drop, List.drop_append_eq_append_drop,
    List.drop_drop]
  congr 1
  · congr 1
    simp only [List.length_append, List.length_drop]
    omega
  · congr 1
    simp only [List.length_append, List.length_drop]
    omega

/-- Folding the history store from empty over any entry sequence yields
exactly the last-100 suffix of that sequence. -/
theorem foldl_saveHistory (es : List HistEntry) :
    List.foldl History.saveHistory [] es = History.takeLast 100 es := by
  induction es using List.reverseRecOn with
  | nil => simp [History.takeLast]
  | append_singleton es e ih =>
    rw [List.foldl_append, List.foldl_cons, List.foldl_nil, ih]
    exact takeLast_takeLast_append 100 es [e]


/-- With an empty exclusion set, the survivor filter is just the
holiday/weather/time filter. -/
theorem survivors_nil_excl (cat : List Record) (w t : String) :
    Legacy.survivorsLegacy cat w t [] = cat.filter (Legacy.basicMatchB w t) := by
  unfold Legacy.survivorsLegacy
  apply List.filter_congr
  intro x _
  simp [List.contains]

/-- When exactly one catalog record passes the holiday/weather/time filter
and it is not excluded, it is the unique survivor. -/
theorem survivors_single (cat : List Record) (A : Record) (w t : String)
    (excl : List String) (huniq : cat.filter (Legacy.basicMatchB w t) = [A])
    (hexcl : excl.contains A.id = false) :
    Legacy.survivorsLegacy cat w t excl = [A] := by
  unfold Legacy.survivorsLegacy
  exact filter_and_single _ _ A cat huniq (by rw [hexcl]; rfl)

/-- The activity override never changes a singleton survivor set. -/
theorem activityOverride_single (prefs : List String) (A : Record) :
    Legacy.activityOverride prefs [A] = [A] := by
  unfold Legacy.activityOverride
  cases h : Legacy.activityHitB prefs A <;> simp [List.filter_cons, h]

/-- A unique CDN-backed survivor is exactly what `_find_matches` returns. -/
theorem findMatches_single (cat : List Record) (A : Record) (w t : String)
    (excl prefs : List String)
    (hsurv : Legacy.survivorsLegacy cat w t excl = [A])
    (hcdn : Legacy.hasCdnB A = true) :
    Legacy.findMatches cat w t excl prefs = [A] := by
  unfold Legacy.findMatches
  rw [hsurv, activityOverride_single]
  simp [List.filter_cons, hcdn]

/-- A non-empty exact match short-circuits the whole fallback cascade. -/
theorem cascade_of_nonempty (cat : List Record) (w t : String)
    (excl prefs : List String)
    (h : Legacy.findMatches cat w t excl prefs ≠ []) :
    Legacy.cascade cat w t excl prefs = Legacy.findMatches cat w t excl prefs := by
  unfold Legacy.cascade
  have hb : (Legacy.findMatches cat w t excl prefs).isEmpty = false := by
    simp [List.isEmpty_iff, h]
  simp [hb]

/-- When the recency-free exact match is the CDN-backed singleton, the
sleeping-hour search accepts it immediately. -/
theorem sleepSearch_of_exact (cat : List Record) (A : Record) (w t : String)
    (prefs : List String)
    (he : Legacy.findMatches cat w t [] prefs = [A])
    (hcdn : Legacy.hasCdnB A = true) :
    Legacy.sleepSearch cat w t prefs = some [A] := by
  unfold Legacy.sleepSearch
  rw [he]
  simp [hcdn]

/-- The sleeping-hour overlay leaves a CDN-backed singleton unchanged. -/
theorem overlay_single (cat : List Record) (A : Record) (w t : String)
    (hour : Nat) (b : Bool) (prefs : List String)
    (he : Legacy.findMatches cat w t [] prefs = [A])
    (hcdn : Legacy.hasCdnB A = true) :
    Legacy.overlay cat w t hour b prefs [A] = [A] := by
  unfold Legacy.overlay
  cases hcond : (b && Legacy.sleepingHourB hour && !prefs.isEmpty &&
      !Legacy.hasActivityMatchB [A] prefs)
  · simp [hcond]
  · rw [if_pos rfl, sleepSearch_of_exact cat A w t prefs he hcdn]
    simp [List.filter_cons, hcdn]

/-- The activity-relaxation retry only fires on an empty candidate set. -/
theorem relaxActivity_nonempty (cat : List Record) (w t : String)
    (excl prefs : List String) (cands : List Record) (h : cands ≠ []) :
    Legacy.relaxActivity cat w t excl prefs cands = cands := by
  unfold Legacy.relaxActivity
  have hb : cands.isEmpty = false := by simp [List.isEmpty_iff, h]
  simp [hb]

/-- A single candidate is returned directly, bypassing all randomness. -/
theorem weightedRandomChoice_singleton (A : Record) (r : ℚ) (f : Nat) :
    Legacy.weightedRandomChoice [A] r f = some A := rfl

/-- A unique, CDN-backed, non-excluded exact match survives the whole
candidate pipeline untouched. -/
theorem candidatePipeline_single (cat : List Record) (A : Record)
    (w t : String) (hour : Nat) (excl : List String) (b : Bool)
    (huniq : cat.filter (Legacy.basicMatchB w t) = [A])
    (hexcl : excl.contains A.id = false)
    (hcdn : Legacy.hasCdnB A = true) :
    Legacy.candidatePipeline cat w t hour excl b = [A] := by
  unfold Legacy.candidatePipeline
  have hsurv : Legacy.survivorsLegacy cat w t excl = [A] :=
    survivors_single cat A w t excl huniq hexcl
  have hsurv0 : Legacy.survivorsLegacy cat w t [] = [A] := by
    rw [survivors_nil_excl]; exact huniq
  have hfm : Legacy.findMatches cat w t excl (Legacy.ACTIVITY_BY_HOUR hour) = [A] :=
    findMatches_single cat A w t excl _ hsurv hcdn
  have hfm0 : Legacy.findMatches cat w t [] (Legacy.ACTIVITY_BY_HOUR hour) = [A] :=
    findMatches_single cat A w t [] _ hsurv0 hcdn
  rw [cascade_of_nonempty cat w t excl _ (by rw [hfm]; simp), hfm,
    overlay_single cat A w t hour b _ hfm0 hcdn,
    relaxActivity_nonempty cat w t excl _ [A] (by simp)]

/-- With recency-avoidance already disabled, the legacy `select` never
takes its recursive branch: any positive fuel computes the same result. -/
theorem legacy_selectFuel_false_fuel (n : Nat) (cat : List Record)
    (w t : String) (hour : Nat) (rid : List String) (r : ℚ) (f : Nat) :
    Legacy.selectFuel (n + 1) cat w t hour rid false r f =
      Legacy.selectFuel 1 cat w t hour rid false r f := by
  simp only [Legacy.selectFuel, Bool.and_false, Bool.false_eq_true, if_false]

/-- Any fuel of at least two computes the legacy `select`: the
recency-relaxation re-entry happens at most once. -/
theorem legacy_selectFuel_ge_two (n : Nat) (cat : List Record) (w t : String)
    (hour : Nat) (rid : List String) (b : Bool) (r : ℚ) (f : Nat) :
    Legacy.selectFuel (n + 2) cat w t hour rid b r f =
      Legacy.select cat w t hour rid b r f := by
  cases b with
  | false =>
    rw [Legacy.select, show n + 2 = (n + 1) + 1 from rfl,
      legacy_selectFuel_false_fuel (n + 1), show (2 : Nat) = 1 + 1 from rfl,
      legacy_selectFuel_false_fuel 1]
  | true =>
    rw [Legacy.select]
    simp only [Legacy.selectFuel, Bool.and_false, Bool.false_eq_true, if_false,
      Bool.and_true]

/-- New-variant analogue of `legacy_selectFuel_false_fuel`. -/
theorem new_selectNewFuel_false_fuel (n : Nat) (cat : List Record)
    (urls : List (String × String)) (w t : String) (rid : List String)
    (ci : Nat) :
    NewVariant.selectNewFuel (n + 1) cat urls w t rid false ci =
      NewVariant.selectNewFuel 1 cat urls w t rid false ci := by
  simp only [NewVariant.selectNewFuel, Bool.and_false, Bool.false_eq_true,
    if_false]

/-- New-variant analogue of `legacy_selectFuel_ge_two`. -/
theorem new_selectNewFuel_ge_two (n : Nat) (cat : List Record)
    (urls : List (String × String)) (w t : String) (rid : List String)
    (b : Bool) (ci : Nat) :
    NewVariant.selectNewFuel (n + 2) cat urls w t rid b ci =
      NewVariant.selectNew cat urls w t rid b ci := by
  cases b with
  | false =>
    rw [NewVariant.selectNew, show n + 2 = (n + 1) + 1 from rfl,
      new_selectNewFuel_false_fuel (n + 1), show (2 : Nat) = 1 + 1 from rfl,
      new_selectNewFuel_false_fuel 1]
  | true =>
    rw [NewVariant.selectNew]
    simp only [NewVariant.selectNewFuel, Bool.and_false, Bool.false_eq_true,
      if_false, Bool.and_true]



/-- An enumerated pair points back to its catalog slot. -/
theorem enum_get?_of_mem {l : List Record} {i : Nat} {x : Record}
    (h : (i, x) ∈ l.enum) : l.get? i = some x := by
  have := List.mk_mem_enum_iff_getElem?.mp h
  simpa [List.get?_eq_getElem?] using this

/-- A successful non-empty guard returns its input list. -/
theorem nonEmptyOptP_eq_some {l c : List (Nat × Record)}
    (h : NewVariant.nonEmptyOptP l = some c) : c = l := by
  unfold NewVariant.nonEmptyOptP at h
  split at h
  · exact absurd h (by simp)
  · exact (Option.some_inj.mp h).symm

/-- New-variant matches are (indexed) catalog entries. -/
theorem findMatchesNew_sub {cat : List Record} {w t : String}
    {excl : List String} {p : Nat × Record}
    (h : p ∈ NewVariant.findMatchesNew cat w t excl) : p ∈ cat.enum := by
  unfold NewVariant.findMatchesNew at h
  dsimp only at h
  split at h
  · exact (List.mem_filter.mp h).1
  · exact (List.mem_filter.mp (List.mem_filter.mp h).1).1

/-- Every cascade stage of the new variant yields catalog entries. -/
theorem cascadeNew_sub {cat : List Record} {w t : String}
    {excl : List String} {p : Nat × Record}
    (h : p ∈ NewVariant.cascadeNew cat w t excl) : p ∈ cat.enum := by
  unfold NewVariant.cascadeNew at h
  dsimp only at h
  split at h
  · exact findMatchesNew_sub h
  · split at h
    · rename_i c hc
      obtain ⟨fw, _, hfw⟩ := List.exists_of_findSome?_eq_some hc
      rw [nonEmptyOptP_eq_some hfw] at h
      exact findMatchesNew_sub h
    · split at h
      · rename_i c hc
        obtain ⟨ft, _, hft⟩ := List.exists_of_findSome?_eq_some hc
        rw [nonEmptyOptP_eq_some hft] at h
        exact findMatchesNew_sub h
      · cases hcomb : NewVariant.tryCombinedNew cat w t excl with
        | none => rw [hcomb] at h; simp at h
        | some c =>
          rw [hcomb] at h
          obtain ⟨fw, _, hfw⟩ := List.exists_of_findSome?_eq_some hcomb
          obtain ⟨ft, _, hft⟩ := List.exists_of_findSome?_eq_some hfw
          rw [nonEmptyOptP_eq_some hft] at h
          exact findMatchesNew_sub h

/-- The new-variant ultimate fallback yields catalog entries. -/
theorem ultimateFallbackNew_sub {cat : List Record} {p : Nat × Record}
    (h : p ∈ NewVariant.ultimateFallbackNew cat) : p ∈ cat.enum := by
  unfold NewVariant.ultimateFallbackNew at h
  dsimp only at h
  split at h
  · exact h
  · exact (List.mem_filter.mp h).1

/-- URL enhancement can only rewrite the `cloudinary_url` field. -/
theorem enhanceRecord_shape (urls : List (String × String)) (img : Record) :
    ∃ u, NewVariant.enhanceRecord urls img = { img with cloudinary_url := u } := by
  unfold NewVariant.enhanceRecord
  split
  · exact ⟨img.cloudinary_url, rfl⟩
  · split
    · split
      · rename_i u _
        exact ⟨u, rfl⟩
      · exact ⟨img.cloudinary_url, rfl⟩
    · exact ⟨img.cloudinary_url, rfl⟩

/-- The pick-and-enhance tail either leaves the catalog alone or
replaces exactly the chosen slot with a record differing at most in
`cloudinary_url`, returning that same record. -/
theorem pickAndEnhance_shape (cat : List Record)
    (urls : List (String × String)) (c4 : List (Nat × Record)) (ci : Nat)
    (hsub : ∀ p ∈ c4, p ∈ cat.enum) :
    (NewVariant.pickAndEnhance cat urls c4 ci).2 = cat ∨
    ∃ i img u, cat.get? i = some img ∧
      NewVariant.pickAndEnhance cat urls c4 ci =
        (some ({ img with cloudinary_url := u }),
          cat.set i ({ img with cloudinary_url := u })) := by
  unfold NewVariant.pickAndEnhance
  split
  · left; rfl
  · split
    · left; rfl
    · rename_i i img hget
      right
      obtain ⟨u, hu⟩ := enhanceRecord_shape urls img
      have hmem : (i, img) ∈ c4 := List.get?_mem hget
      exact ⟨i, img, u, enum_get?_of_mem (hsub _ hmem), by rw [hu]⟩

/-- The new-variant `select` either leaves the catalog alone or replaces
exactly the chosen slot with a record differing at most in
`cloudinary_url`, and returns that record. -/
theorem selectNew_mutation_shape (fuel : Nat) (cat : List Record)
    (urls : List (String × String)) (w t : String) (rid : List String)
    (b : Bool) (ci : Nat) :
    (NewVariant.selectNewFuel fuel cat urls w t rid b ci).2 = cat ∨
    ∃ i img u, cat.get? i = some img ∧
      NewVariant.selectNewFuel fuel cat urls w t rid b ci =
        (some ({ img with cloudinary_url := u }),
          cat.set i ({ img with cloudinary_url := u })) := by
  induction fuel generalizing b with
  | zero => left; rfl
  | succ fuel ih =>
    rw [NewVariant.selectNewFuel]
    dsimp only
    split
    · left; rfl
    · cases b with
      | true =>
        simp only [Bool.and_true, eq_self_iff_true, if_true]
        split
        · exact ih false
        · apply pickAndEnhance_shape
          intro p hp
          exact cascadeNew_sub hp
      | false =>
        simp only [Bool.and_false, Bool.false_eq_true, if_false]
        apply pickAndEnhance_shape
        intro p hp
        split at hp
        · exact ultimateFallbackNew_sub hp
        · exact cascadeNew_sub hp

/-- The cumulative-distribution walk returns one of its pairs. -/
theorem pickCum_fst_mem : ∀ (pairs : List (Record × ℚ)) (r cum : ℚ)
    (img : Record), Legacy.pickCum pairs r cum = some img →
    ∃ q ∈ pairs, Prod.fst q = img := by
  intro pairs
  induction pairs with
  | nil => intro r cum img h; simp [Legacy.pickCum] at h
  | cons q rest ih =>
    intro r cum img h
    obtain ⟨a, p⟩ := q
    rw [Legacy.pickCum] at h
    split at h
    · exact ⟨(a, p), List.mem_cons_self _ _, Option.some_inj.mp h⟩
    · obtain ⟨q', hq', hfst⟩ := ih r (cum + p) img h
      exact ⟨q', List.mem_cons_of_mem _ hq', hfst⟩

/-- The weighted draw returns one of its candidates. -/
theorem weightedRandomChoice_mem (cands : List Record) (r : ℚ) (f : Nat)
    (img : Record) (h : Legacy.weightedRandomChoice cands r f = some img) :
    img ∈ cands := by
  unfold Legacy.weightedRandomChoice at h
  split at h
  · exact absurd h (by simp)
  · split at h
    · exact List.mem_of_mem_head? h
    · dsimp only at h
      split at h
      · exact List.get?_mem h
      · split at h
        · rename_i img' hpick
          obtain ⟨q, hq, hfst⟩ := pickCum_fst_mem _ _ _ _ hpick
          obtain ⟨qa, qb⟩ := q
          have hz := (List.of_mem_zip hq).1
          rw [← Option.some_inj.mp h, ← hfst]
          exact hz
        · exact List.get?_mem h

/-- The activity override selects among its input records. -/
theorem activityOverride_sub {prefs : List String} {ms : List Record}
    {x : Record} (h : x ∈ Legacy.activityOverride prefs ms) : x ∈ ms := by
  unfold Legacy.activityOverride at h
  dsimp only at h
  split at h
  · exact h
  · exact (List.mem_filter.mp h).1

/-- Legacy matches are catalog records. -/
theorem findMatches_sub {cat : List Record} {w t : String}
    {excl prefs : List String} {x : Record}
    (h : x ∈ Legacy.findMatches cat w t excl prefs) : x ∈ cat := by
  unfold Legacy.findMatches at h
  have h1 := activityOverride_sub (List.mem_filter.mp h).1
  exact (List.mem_filter.mp h1).1

/-- A successful non-empty guard returns its input list. -/
theorem nonEmptyOpt_eq_some {l c : List Record}
    (h : Legacy.nonEmptyOpt l = some c) : c = l := by
  unfold Legacy.nonEmptyOpt at h
  split at h
  · exact absurd h (by simp)
  · exact (Option.some_inj.mp h).symm

/-- Every legacy cascade stage yields catalog records. -/
theorem cascade_sub {cat : List Record} {w t : String}
    {excl prefs : List String} {x : Record}
    (h : x ∈ Legacy.cascade cat w t excl prefs) : x ∈ cat := by
  unfold Legacy.cascade at h
  dsimp only at h
  split at h
  · exact findMatches_sub h
  · split at h
    · rename_i c hc
      obtain ⟨fw, _, hfw⟩ := List.exists_of_findSome?_eq_some hc
      rw [nonEmptyOpt_eq_some hfw] at h
      exact findMatches_sub h
    · split at h
      · rename_i c hc
        obtain ⟨ft, _, hft⟩ := List.exists_of_findSome?_eq_some hc
        rw [nonEmptyOpt_eq_some hft] at h
        exact findMatches_sub h
      · cases hcomb : Legacy.tryCombined cat w t excl prefs with
        | none => rw [hcomb] at h; simp at h
        | some c =>
          rw [hcomb] at h
          obtain ⟨fw, _, hfw⟩ := List.exists_of_findSome?_eq_some hcomb
          obtain ⟨ft, _, hft⟩ := List.exists_of_findSome?_eq_some hfw
          rw [nonEmptyOpt_eq_some hft] at h
          exact findMatches_sub h

/-- A successful sleeping-hour search yields catalog records. -/
theorem sleepSearch_sub {cat : List Record} {w t : String}
    {prefs : List String} {sc : List Record} {x : Record}
    (hs : Legacy.sleepSearch cat w t prefs = some sc) (h : x ∈ sc) :
    x ∈ cat := by
  unfold Legacy.sleepSearch at hs
  dsimp only at hs
  split at hs
  · rw [← Option.some_inj.mp hs] at h
    exact findMatches_sub h
  · obtain ⟨fw, _, hfw⟩ := List.exists_of_findSome?_eq_some hs
    split at hfw
    · rw [← Option.some_inj.mp hfw] at h
      exact findMatches_sub h
    · exact absurd hfw (by simp)

/-- The overlay yields catalog records when its input does. -/
theorem overlay_sub {cat : List Record} {w t : String} {hour : Nat}
    {b : Bool} {prefs : List String} {cands : List Record} {x : Record}
    (hcands : ∀ y ∈ cands, y ∈ cat)
    (h : x ∈ Legacy.overlay cat w t hour b prefs cands) : x ∈ cat := by
  unfold Legacy.overlay at h
  split at h
  · split at h
    · rename_i sc hsc
      exact sleepSearch_sub hsc (List.mem_filter.mp h).1
    · exact hcands x h
  · exact hcands x h

/-- The activity relaxation yields catalog records when its input does. -/
theorem relaxActivity_sub {cat : List Record} {w t : String}
    {excl prefs : List String} {cands : List Record} {x : Record}
    (hcands : ∀ y ∈ cands, y ∈ cat)
    (h : x ∈ Legacy.relaxActivity cat w t excl prefs cands) : x ∈ cat := by
  unfold Legacy.relaxActivity at h
  split at h
  · dsimp only at h
    split at h
    · exact findMatches_sub h
    · cases htw : Legacy.tryWeather cat w t excl [] with
      | none => rw [htw] at h; simp at h
      | some c =>
        rw [htw] at h
        obtain ⟨fw, _, hfw⟩ := List.exists_of_findSome?_eq_some htw
        rw [nonEmptyOpt_eq_some hfw] at h
        exact findMatches_sub h
  · exact hcands x h

/-- The candidate pipeline yields catalog records. -/
theorem candidatePipeline_sub {cat : List Record} {w t : String}
    {hour : Nat} {excl : List String} {b : Bool} {x : Record}
    (h : x ∈ Legacy.candidatePipeline cat w t hour excl b) : x ∈ cat := by
  unfold Legacy.candidatePipeline at h
  exact relaxActivity_sub (fun y hy => overlay_sub (fun z hz => cascade_sub hz) hy) h

/-- The legacy ultimate fallback yields catalog records. -/
theorem ultimateFallback_sub {cat : List Record} {hour : Nat} {x : Record}
    (h : x ∈ Legacy.ultimateFallback cat hour) : x ∈ cat := by
  unfold Legacy.ultimateFallback at h
  dsimp only at h
  repeat' split at h
  all_goals first
    | exact h
    | exact (List.mem_filter.mp h).1
    | exact (List.mem_filter.mp (List.mem_filter.mp h).1).1

/-- Whatever the legacy `select` returns is a record of the catalog,
unchanged: the legacy variant never fabricates or edits records. -/
theorem selectFuel_mem (fuel : Nat) (cat : List Record) (w t : String)
    (hour : Nat) (rid : List String) (b : Bool) (r : ℚ) (f : Nat)
    (img : Record)
    (h : Legacy.selectFuel fuel cat w t hour rid b r f = some img) :
    img ∈ cat := by
  induction fuel generalizing b with
  | zero => exact absurd h (by simp [Legacy.selectFuel])
  | succ fuel ih =>
    rw [Legacy.selectFuel] at h
    dsimp only at h
    split at h
    · exact absurd h (by simp)
    · split at h
      all_goals
        split at h
      · exact ih false h
      · have hmem := weightedRandomChoice_mem _ _ _ _ h
        split at hmem
        · exact ultimateFallback_sub hmem
        · exact candidatePipeline_sub hmem
      · exact ih false h
      · have hmem := weightedRandomChoice_mem _ _ _ _ h
        split at hmem
        · exact ultimateFallback_sub hmem
        · exact candidatePipeline_sub hmem

/-! ### Claim theorems -/

/-- Claim C8: `select` terminates unconditionally on every input in both
variants — the only recursion is the recency-relaxation re-entry, which
passes `avoid_recent=False` and therefore can never be taken again.
Formally: granting the recursion any extra fuel beyond two never changes
the result (so the recursion depth is at most two calls), and with
recency-avoidance disabled even one unit of fuel suffices. -/
theorem c8_select_bounded_recursion :
    (∀ (n : Nat) (cat : List Record) (w t : String) (hour : Nat)
       (recentIds : List String) (avoidRecent : Bool) (r : ℚ) (fIdx : Nat),
       Legacy.selectFuel (n + 2) cat w t hour recentIds avoidRecent r fIdx =
         Legacy.select cat w t hour recentIds avoidRecent r fIdx) ∧
    (∀ (n : Nat) (cat : List Record) (urls : List (String × String))
       (w t : String) (recentIds : List String) (avoidRecent : Bool)
       (choiceIdx : Nat),
       NewVariant.selectNewFuel (n + 2) cat urls w t recentIds avoidRecent
           choiceIdx =
         NewVariant.selectNew cat urls w t recentIds avoidRecent choiceIdx) :=
  ⟨fun n cat w t hour rid b r f => legacy_selectFuel_ge_two n cat w t hour rid b r f,
   fun n cat urls w t rid b ci => new_selectNewFuel_ge_two n cat urls w t rid b ci⟩

/-- Claim C2: on an empty catalog, `select` returns the explicit
no-selection result (`None`) in both variants — it neither raises nor
fabricates a record, for every query, hour, history, recency flag and
random draw. -/
theorem c2_empty_catalog_returns_none :
    (∀ (w t : String) (hour : Nat) (recentIds : List String)
       (avoidRecent : Bool) (r : ℚ) (fIdx : Nat),
       Legacy.select [] w t hour recentIds avoidRecent r fIdx = none) ∧
    (∀ (urls : List (String × String)) (w t : String)
       (recentIds : List String) (avoidRecent : Bool) (choiceIdx : Nat),
       NewVariant.selectNew [] urls w t recentIds avoidRecent choiceIdx =
         (none, [])) := by
  exact ⟨fun _ _ _ _ _ _ _ => rfl, fun _ _ _ _ _ _ => rfl⟩

/-- Claim C4 (counterexample): the legacy loader does not catch JSON parse
errors — on a malformed database file `json.load`'s `JSONDecodeError`
propagates instead of an empty sequence being returned. -/
theorem c4_counterexample_legacy_load_raises :
    Legacy.loadDatabase FileContent.malformed =
      Except.error "json.decoder.JSONDecodeError" ∧
    Legacy.loadDatabase FileContent.malformed ≠ Except.ok [] := by
  exact ⟨rfl, by simp [Legacy.loadDatabase]⟩

/-- Claim C4 (amended): a missing database file yields an empty sequence in
both variants, and a malformed (non-parseable) file yields an empty
sequence in the new variant; the legacy variant instead raises
`JSONDecodeError` on a malformed file. -/
theorem c4_amended_load_behaviour :
    Legacy.loadDatabase FileContent.missing = Except.ok [] ∧
    (∃ msg, Legacy.loadDatabase FileContent.malformed = Except.error msg) ∧
    NewVariant.loadDatabase FileContent.missing = [] ∧
    NewVariant.loadDatabase FileContent.malformed = [] := by
  exact ⟨rfl, ⟨"json.decoder.JSONDecodeError", rfl⟩, rfl, rfl⟩

/-- Claim C5: each `_save_history` call leaves at most 100 entries, and
recording any sequence of selections starting from an empty store keeps
exactly the most recent 100 (all but the last 100 dropped), in original
oldest-first order — FIFO eviction. -/
theorem c5_history_truncation :
    (∀ (h : List HistEntry) (e : HistEntry),
       (History.saveHistory h e).length ≤ 100) ∧
    (∀ es : List HistEntry,
       List.foldl History.saveHistory [] es = es.drop (es.length - 100)) := by
  constructor
  · intro h e
    unfold History.saveHistory History.takeLast
    simp only [List.length_drop]
    omega
  · intro es
    exact foldl_saveHistory es

/-- Claim C1: the failing input — a catalog whose only record is
holiday-tagged (non-empty `holiday`), exactly matching the queried weather
and time, with a usable CDN URL.  All `_find_matches` stages skip it, but
the ultimate CDN-image fallback of `select` (select_image.py lines
272-296) draws from all CDN-backed records without re-applying the holiday
exclusion, so `select` returns the holiday record, contradicting the
code's own "CRITICAL: skip holiday images" policy and the spec. -/
theorem c1_holiday_record_returned_by_fallback :
    Legacy.select [cexHoliday] "Sunny" "Morning" 10 [] true 0 0 =
      some cexHoliday ∧
    Legacy.isHolidayB cexHoliday = true := by
  exact ⟨by decide, by decide⟩

/-- Claim C3 (counterexample): one record survives the
holiday/weather/time/recency filters for Sunny + Morning, yet
`_find_matches` returns the empty list because the survivor has no CDN
URL — there is no fall-back to "any resolvable URL" or to the full
filtered set. -/
theorem c3_counterexample_no_url_tiers :
    Legacy.survivorsLegacy [cexA] "Sunny" "Morning" [] = [cexA] ∧
    Legacy.activityOverride [] (Legacy.survivorsLegacy [cexA] "Sunny" "Morning" [])
      = [cexA] ∧
    Legacy.findMatches [cexA] "Sunny" "Morning" [] [] = [] := by
  exact ⟨by decide, by decide, by decide⟩

/-- Claim C3 (amended): `_find_matches` returns exactly the post-override
survivors that carry a usable CDN URL — when at least one survivor has a
CDN URL the result is that non-empty subset, and when no survivor has one
the result is empty; there is no second tier of "any resolvable URL" and no
third tier returning the full filtered set. -/
theorem c3_amended_strict_cdn_only (cat : List Record) (w t : String)
    (excl prefs : List String) :
    ((∃ img ∈ Legacy.activityOverride prefs (Legacy.survivorsLegacy cat w t excl),
        Legacy.hasCdnB img = true) →
      Legacy.findMatches cat w t excl prefs =
        (Legacy.activityOverride prefs
          (Legacy.survivorsLegacy cat w t excl)).filter Legacy.hasCdnB ∧
      Legacy.findMatches cat w t excl prefs ≠ []) ∧
    ((∀ img ∈ Legacy.activityOverride prefs (Legacy.survivorsLegacy cat w t excl),
        Legacy.hasCdnB img = false) →
      Legacy.findMatches cat w t excl prefs = []) := by
  constructor
  · rintro ⟨img, hmem, hcdn⟩
    refine ⟨rfl, fun hnil => ?_⟩
    have hin : img ∈ Legacy.findMatches cat w t excl prefs :=
      List.mem_filter.mpr ⟨hmem, hcdn⟩
    rw [hnil] at hin
    exact absurd hin (List.not_mem_nil img)
  · intro hall
    unfold Legacy.findMatches
    rw [List.filter_eq_nil_iff]
    intro a ha
    simp [hall a ha]

/-- Claim C3 (witness): a concrete catalog whose unique CDN-backed survivor
makes `_find_matches` return the non-empty CDN subset. -/
theorem c3_amended_witness :
    Legacy.findMatches [cexACdn] "Sunny" "Morning" [] [] =
      (Legacy.activityOverride []
        (Legacy.survivorsLegacy [cexACdn] "Sunny" "Morning" [])).filter
        Legacy.hasCdnB ∧
    Legacy.findMatches [cexACdn] "Sunny" "Morning" [] [] ≠ [] :=
  (c3_amended_strict_cdn_only [cexACdn] "Sunny" "Morning" [] []).1
    ⟨cexACdn, by decide, by decide⟩

/-- Claim C10: whenever some survivor of the new variant's
weather/time/recency filters is verified, `_find_matches` returns exactly
the verified survivors (so an unverified record can only be chosen when no
verified record matches), and the ultimate fallback restricts to verified
catalog records whenever any exist. -/
theorem c10_verified_preference :
    (∀ (cat : List Record) (w t : String) (excl : List String),
       (∃ p ∈ NewVariant.survivorsNew cat w t excl, p.2.verified = true) →
         NewVariant.findMatchesNew cat w t excl =
           (NewVariant.survivorsNew cat w t excl).filter
             (fun p => p.2.verified) ∧
         ∀ p ∈ NewVariant.findMatchesNew cat w t excl, p.2.verified = true) ∧
    (∀ cat : List Record, (∃ img ∈ cat, img.verified = true) →
       ∀ p ∈ NewVariant.ultimateFallbackNew cat, p.2.verified = true) := by
  constructor
  · rintro cat w t excl ⟨p, hp, hv⟩
    have hne : (NewVariant.survivorsNew cat w t excl).filter
        (fun p => p.2.verified) ≠ [] := by
      intro hnil
      have hin : p ∈ (NewVariant.survivorsNew cat w t excl).filter
          (fun p => p.2.verified) := List.mem_filter.mpr ⟨hp, hv⟩
      rw [hnil] at hin
      exact absurd hin (List.not_mem_nil p)
    have hbool : ((NewVariant.survivorsNew cat w t excl).filter
        (fun p => p.2.verified)).isEmpty = false := by
      simp [List.isEmpty_iff, hne]
    have heq : NewVariant.findMatchesNew cat w t excl =
        (NewVariant.survivorsNew cat w t excl).filter (fun p => p.2.verified) := by
      simp [NewVariant.findMatchesNew, hbool]
    refine ⟨heq, fun q hq => ?_⟩
    rw [heq] at hq
    exact (List.mem_filter.mp hq).2
  · rintro cat ⟨img, hmem, hv⟩ p hp
    have hmem' : img ∈ cat.enum.map Prod.snd := by
      rw [List.enum_map_snd]; exact hmem
    obtain ⟨q, hq, hsnd⟩ := List.mem_map.mp hmem'
    have hne : cat.enum.filter (fun p => p.2.verified) ≠ [] := by
      intro hnil
      have hin : q ∈ cat.enum.filter (fun p => p.2.verified) :=
        List.mem_filter.mpr ⟨hq, by rw [hsnd]; exact hv⟩
      rw [hnil] at hin
      exact absurd hin (List.not_mem_nil q)
    have hbool : (cat.enum.filter (fun p => p.2.verified)).isEmpty = false := by
      simp [List.isEmpty_iff, hne]
    simp only [NewVariant.ultimateFallbackNew, hbool] at hp
    rw [if_neg (by simp)] at hp
    exact (List.mem_filter.mp hp).2

/-- Claim C10 (witness): with one verified and one unverified exact match,
`_find_matches` keeps only the verified one. -/
theorem c10_verified_witness :
    NewVariant.findMatchesNew [unverRec, verRec] "Sunny" "Morning" [] =
      (NewVariant.survivorsNew [unverRec, verRec] "Sunny" "Morning" []).filter
        (fun p => p.2.verified) :=
  ((c10_verified_preference).1 [unverRec, verRec] "Sunny" "Morning" []
    ⟨(1, verRec), by decide, by decide⟩).1

/-- Claim C7 (counterexample): `cexA` is the only record matching the
queried weather and time (Sunny + Morning), yet `select` returns the other
record `cexB` — the unique exact match has no CDN URL, so `_find_matches`
drops it and the weather fallback (Sunny → Partly Cloudy, which
substring-matches Cloudy) wins. -/
theorem c7_counterexample_unique_match_not_returned :
    List.filter (Legacy.basicMatchB "Sunny" "Morning") [cexA, cexB] = [cexA] ∧
    Legacy.select [cexA, cexB] "Sunny" "Morning" 10 [] true 0 0 = some cexB ∧
    cexB ≠ cexA := by
  exact ⟨by decide, by decide, by decide⟩

/-- Claim C6: in the weighted draw, a candidate with at least 5 total
ratings receives weight clamp(1.0 + rating_score/10, 0.1, 3.0) and a
candidate with fewer receives exactly 1.0; in particular the ten-rating
candidates with scores +10 and -10 weigh 2.0 and 0.1; and over those two
candidates the single uniform draw `r` picks the first exactly when `r`
falls within its normalized cumulative probability 2.0/2.1 = 20/21. -/
theorem c6_weighted_draw :
    (∀ img : Record, 5 ≤ img.total_ratings →
        Legacy.weightOf img =
          max (1/10 : ℚ) (min 3 (1 + (img.rating_score : ℚ) / 10))) ∧
    (∀ img : Record, img.total_ratings < 5 → Legacy.weightOf img = 1) ∧
    Legacy.weightOf imgPlus = 2 ∧
    Legacy.weightOf imgMinus = 1/10 ∧
    (∀ (r : ℚ) (fIdx : Nat), r ≤ 1 →
        Legacy.weightedRandomChoice [imgPlus, imgMinus] r fIdx =
          some (if r ≤ 20/21 then imgPlus else imgMinus)) := by
  have hp : Legacy.weightOf imgPlus = 2 := by
    norm_num [Legacy.weightOf, imgPlus]
  have hm : Legacy.weightOf imgMinus = 1/10 := by
    norm_num [Legacy.weightOf, imgMinus]
  refine ⟨?_, ?_, hp, hm, ?_⟩
  · intro img h
    unfold Legacy.weightOf
    rw [if_pos h]
  · intro img h
    unfold Legacy.weightOf
    rw [if_neg (by omega)]
  · intro r fIdx hr
    simp only [Legacy.weightedRandomChoice, List.map, hp, hm, List.isEmpty_cons,
      List.length_cons, List.length_nil, List.sum_cons, List.sum_nil, List.zip]
    norm_num
    by_cases hc : r ≤ 20/21
    · rw [if_pos hc]
      simp only [Legacy.pickCum]
      norm_num [hc]
    · rw [if_neg hc]
      simp only [Legacy.pickCum]
      norm_num [hc, hr]

/-- Claim C6 (witness): the weight formula at the ten-rating score-+10
record, and the draw at `r = 1/2` (within the first candidate's 20/21
probability mass). -/
theorem c6_weighted_draw_witness :
    Legacy.weightOf imgPlus =
      max (1/10 : ℚ) (min 3 (1 + (imgPlus.rating_score : ℚ) / 10)) ∧
    Legacy.weightedRandomChoice [imgPlus, imgMinus] (1/2) 0 = some imgPlus := by
  refine ⟨(c6_weighted_draw).1 imgPlus (by decide), ?_⟩
  have h := (c6_weighted_draw).2.2.2.2 (1/2) 0 (by norm_num)
  rw [h]
  norm_num

/-- Claim C9 (counterexample): a call to the new variant's `select` mutates
the loaded catalog — the chosen record's `cloudinary_url` is overwritten in
place from the URL mapping, so the catalog is not field-for-field equal to
its value at load time. -/
theorem c9_counterexample_catalog_mutated :
    (NewVariant.selectNew [mutRec] mutUrls "Sunny" "Morning" [] true 0).2 ≠
      [mutRec] ∧
    (NewVariant.selectNew [mutRec] mutUrls "Sunny" "Morning" [] true 0).2 =
      [{ mutRec with cloudinary_url := "https://cdn.example/x.png" }] := by
  exact ⟨by decide, by decide⟩


/-- Claim C7 (amended): when exactly one catalog record passes the
holiday/weather/time filter for the queried weather and time, that record
has a usable CDN URL, and its id is not in the recency-exclusion set, then
`select` returns exactly that record for every hour, recency flag and
random draw — a single-candidate draw bypasses randomness.  (The CDN and
recency conditions are forced by the counterexample: without a CDN URL the
unique match is dropped and a fallback record can win.) -/
theorem c7_amended_unique_eligible_match (cat : List Record) (A : Record)
    (w t : String) (hour : Nat) (recentIds : List String)
    (avoidRecent : Bool) (r : ℚ) (fIdx : Nat)
    (huniq : cat.filter (Legacy.basicMatchB w t) = [A])
    (hcdn : Legacy.hasCdnB A = true)
    (hrecent : recentIds.contains A.id = false) :
    Legacy.select cat w t hour recentIds avoidRecent r fIdx = some A := by
  have hcat : cat.isEmpty = false := by
    cases cat with
    | nil => simp at huniq
    | cons a l => rfl
  have hpipe0 : Legacy.candidatePipeline cat w t hour [] false = [A] :=
    candidatePipeline_single cat A w t hour [] false huniq rfl hcdn
  have hpipeT : Legacy.candidatePipeline cat w t hour
      (if avoidRecent then recentIds else []) avoidRecent = [A] := by
    cases avoidRecent
    · exact hpipe0
    · exact candidatePipeline_single cat A w t hour recentIds true huniq
        hrecent hcdn
  rw [Legacy.select]
  simp only [Legacy.selectFuel, hcat, Bool.false_eq_true, if_false, hpipeT,
    hpipe0, List.isEmpty_cons, Bool.false_and]
  exact weightedRandomChoice_singleton A r fIdx

/-- Claim C7 (witness): the CDN-backed unique Sunny + Morning match is
returned at a sleeping hour, with a non-trivial exclusion set and random
draw. -/
theorem c7_amended_unique_eligible_match_witness :
    Legacy.select [cexACdn, cexB] "Sunny" "Morning" 3 ["9"] true (1/3) 5 =
      some cexACdn :=
  c7_amended_unique_eligible_match [cexACdn, cexB] cexACdn "Sunny" "Morning"
    3 ["9"] true (1/3) 5 (by decide) (by decide) (by decide)

/-- Claim C9 (amended): the legacy `select` never mutates the catalog (it
is a pure read whose result is one of the catalog's records, unchanged);
the new variant's `select` may overwrite the chosen record's
`cloudinary_url` in place from the URL mapping, and that is the only
possible change — every call either leaves the whole catalog equal to its
load-time value or replaces exactly the chosen index with a record equal
to the original in every field except `cloudinary_url`. -/
theorem c9_amended_catalog_mutation_frame :
    (∀ (fuel : Nat) (cat : List Record) (urls : List (String × String))
       (w t : String) (recentIds : List String) (avoidRecent : Bool)
       (choiceIdx : Nat),
       (NewVariant.selectNewFuel fuel cat urls w t recentIds avoidRecent
           choiceIdx).2 = cat ∨
       ∃ i img u, cat.get? i = some img ∧
         NewVariant.selectNewFuel fuel cat urls w t recentIds avoidRecent
             choiceIdx =
           (some ({ img with cloudinary_url := u }),
             cat.set i ({ img with cloudinary_url := u }))) ∧
    (∀ (cat : List Record) (w t : String) (hour : Nat)
       (recentIds : List String) (avoidRecent : Bool) (r : ℚ) (fIdx : Nat)
       (img : Record),
       Legacy.select cat w t hour recentIds avoidRecent r fIdx = some img →
         img ∈ cat) :=
  ⟨fun fuel cat urls w t rid b ci =>
      selectNew_mutation_shape fuel cat urls w t rid b ci,
    fun cat w t hour rid b r f img h =>
      selectFuel_mem 2 cat w t hour rid b r f img h⟩

/-- Claim C9 (witness): the legacy-purity half applied at a concrete
catalog — the record returned by `select` is a member of the catalog. -/
theorem c9_amended_catalog_mutation_frame_witness :
    cexHoliday ∈ [cexHoliday] :=
  (c9_amended_catalog_mutation_frame).2 [cexHoliday] "Sunny" "Morning" 10 []
    true 0 0 cexHoliday (by decide)

end AliceDisplay
